import Mathlib

/-!
Verification of the chirp moderation pipeline of
ja8mpi/bootdev-chirpy-server-go (src/main.go).

The functions `hasPunctuation`, `processWords`, `chirpHandler` and
`middlewareMetricsInc` below are shallow embeddings of the Go functions of
the same names.  A Go string is modelled as the list of its runes
(`GoStr`); Go's `len` on strings is the byte length of the UTF-8 encoding
(`goLen`); the `error` returned by `processWords` is an `Option GoStr`
(`none` = `nil`).
-/

namespace Chirpy

set_option maxRecDepth 8192

/-- A Go string, modelled as the list of its runes (Unicode code points).
`for ... range` over a Go string iterates runes, and `strings.Split`,
`strings.Join` and `strings.ToLower` operate rune-wise, so this is the
natural carrier for the moderation pipeline. -/
abbrev GoStr := List Char

/-- Go's `len` on a string: the number of bytes of its UTF-8 encoding
(not the number of runes). -/
def goLen (s : GoStr) : Nat := (s.map Char.utf8Size).sum

/-- The code point ranges of Unicode general category P (Pc, Pd, Pe, Pf,
Pi, Po, Ps), Unicode 14.0.0 — the set accepted by Go's `unicode.IsPunct`
(the vendored Unicode version of the Go toolchain may add a handful of
code points in later-assigned blocks). -/
def punctRanges : List (Nat × Nat) := [
  (0x21, 0x23), (0x25, 0x2A), (0x2C, 0x2F), (0x3A, 0x3B),
  (0x3F, 0x40), (0x5B, 0x5D), (0x5F, 0x5F), (0x7B, 0x7B),
  (0x7D, 0x7D), (0xA1, 0xA1), (0xA7, 0xA7), (0xAB, 0xAB),
  (0xB6, 0xB7), (0xBB, 0xBB), (0xBF, 0xBF), (0x37E, 0x37E),
  (0x387, 0x387), (0x55A, 0x55F), (0x589, 0x58A), (0x5BE, 0x5BE),
  (0x5C0, 0x5C0), (0x5C3, 0x5C3), (0x5C6, 0x5C6), (0x5F3, 0x5F4),
  (0x609, 0x60A), (0x60C, 0x60D), (0x61B, 0x61B), (0x61D, 0x61F),
  (0x66A, 0x66D), (0x6D4, 0x6D4), (0x700, 0x70D), (0x7F7, 0x7F9),
  (0x830, 0x83E), (0x85E, 0x85E), (0x964, 0x965), (0x970, 0x970),
  (0x9FD, 0x9FD), (0xA76, 0xA76), (0xAF0, 0xAF0), (0xC77, 0xC77),
  (0xC84, 0xC84), (0xDF4, 0xDF4), (0xE4F, 0xE4F), (0xE5A, 0xE5B),
  (0xF04, 0xF12), (0xF14, 0xF14), (0xF3A, 0xF3D), (0xF85, 0xF85),
  (0xFD0, 0xFD4), (0xFD9, 0xFDA), (0x104A, 0x104F), (0x10FB, 0x10FB),
  (0x1360, 0x1368), (0x1400, 0x1400), (0x166E, 0x166E), (0x169B, 0x169C),
  (0x16EB, 0x16ED), (0x1735, 0x1736), (0x17D4, 0x17D6), (0x17D8, 0x17DA),
  (0x1800, 0x180A), (0x1944, 0x1945), (0x1A1E, 0x1A1F), (0x1AA0, 0x1AA6),
  (0x1AA8, 0x1AAD), (0x1B5A, 0x1B60), (0x1B7D, 0x1B7E), (0x1BFC, 0x1BFF),
  (0x1C3B, 0x1C3F), (0x1C7E, 0x1C7F), (0x1CC0, 0x1CC7), (0x1CD3, 0x1CD3),
  (0x2010, 0x2027), (0x2030, 0x2043), (0x2045, 0x2051), (0x2053, 0x205E),
  (0x207D, 0x207E), (0x208D, 0x208E), (0x2308, 0x230B), (0x2329, 0x232A),
  (0x2768, 0x2775), (0x27C5, 0x27C6), (0x27E6, 0x27EF), (0x2983, 0x2998),
  (0x29D8, 0x29DB), (0x29FC, 0x29FD), (0x2CF9, 0x2CFC), (0x2CFE, 0x2CFF),
  (0x2D70, 0x2D70), (0x2E00, 0x2E2E), (0x2E30, 0x2E4F), (0x2E52, 0x2E5D),
  (0x3001, 0x3003), (0x3008, 0x3011), (0x3014, 0x301F), (0x3030, 0x3030),
  (0x303D, 0x303D), (0x30A0, 0x30A0), (0x30FB, 0x30FB), (0xA4FE, 0xA4FF),
  (0xA60D, 0xA60F), (0xA673, 0xA673), (0xA67E, 0xA67E), (0xA6F2, 0xA6F7),
  (0xA874, 0xA877), (0xA8CE, 0xA8CF), (0xA8F8, 0xA8FA), (0xA8FC, 0xA8FC),
  (0xA92E, 0xA92F), (0xA95F, 0xA95F), (0xA9C1, 0xA9CD), (0xA9DE, 0xA9DF),
  (0xAA5C, 0xAA5F), (0xAADE, 0xAADF), (0xAAF0, 0xAAF1), (0xABEB, 0xABEB),
  (0xFD3E, 0xFD3F), (0xFE10, 0xFE19), (0xFE30, 0xFE52), (0xFE54, 0xFE61),
  (0xFE63, 0xFE63), (0xFE68, 0xFE68), (0xFE6A, 0xFE6B), (0xFF01, 0xFF03),
  (0xFF05, 0xFF0A), (0xFF0C, 0xFF0F), (0xFF1A, 0xFF1B), (0xFF1F, 0xFF20),
  (0xFF3B, 0xFF3D), (0xFF3F, 0xFF3F), (0xFF5B, 0xFF5B), (0xFF5D, 0xFF5D),
  (0xFF5F, 0xFF65), (0x10100, 0x10102), (0x1039F, 0x1039F), (0x103D0, 0x103D0),
  (0x1056F, 0x1056F), (0x10857, 0x10857), (0x1091F, 0x1091F), (0x1093F, 0x1093F),
  (0x10A50, 0x10A58), (0x10A7F, 0x10A7F), (0x10AF0, 0x10AF6), (0x10B39, 0x10B3F),
  (0x10B99, 0x10B9C), (0x10EAD, 0x10EAD), (0x10F55, 0x10F59), (0x10F86, 0x10F89),
  (0x11047, 0x1104D), (0x110BB, 0x110BC), (0x110BE, 0x110C1), (0x11140, 0x11143),
  (0x11174, 0x11175), (0x111C5, 0x111C8), (0x111CD, 0x111CD), (0x111DB, 0x111DB),
  (0x111DD, 0x111DF), (0x11238, 0x1123D), (0x112A9, 0x112A9), (0x1144B, 0x1144F),
  (0x1145A, 0x1145B), (0x1145D, 0x1145D), (0x114C6, 0x114C6), (0x115C1, 0x115D7),
  (0x11641, 0x11643), (0x11660, 0x1166C), (0x116B9, 0x116B9), (0x1173C, 0x1173E),
  (0x1183B, 0x1183B), (0x11944, 0x11946), (0x119E2, 0x119E2), (0x11A3F, 0x11A46),
  (0x11A9A, 0x11A9C), (0x11A9E, 0x11AA2), (0x11C41, 0x11C45), (0x11C70, 0x11C71),
  (0x11EF7, 0x11EF8), (0x11FFF, 0x11FFF), (0x12470, 0x12474), (0x12FF1, 0x12FF2),
  (0x16A6E, 0x16A6F), (0x16AF5, 0x16AF5), (0x16B37, 0x16B3B), (0x16B44, 0x16B44),
  (0x16E97, 0x16E9A), (0x16FE2, 0x16FE2), (0x1BC9F, 0x1BC9F), (0x1DA87, 0x1DA8B),
  (0x1E95E, 0x1E95F)]

/-- Model of Go's `unicode.IsPunct`: membership of the rune's code point
in the category-P ranges. -/
def goIsPunct (c : Char) : Bool :=
  punctRanges.any fun r => r.1 ≤ c.toNat && c.toNat ≤ r.2

/-- Model of Go's `unicode.ToLower` on a single rune.  ASCII uppercase
letters shift by 32.  U+0130 LATIN CAPITAL LETTER I WITH DOT ABOVE and
U+212A KELVIN SIGN are the only code points above U+007F whose simple
lowercase mapping is an ASCII character; they map to `i` and `k`.  Every
other rune is returned unchanged.  Go may lower such a rune to a different
rune, but only a cased letter moves and only to a letter — never to an
ASCII rune, a space, or a punctuation rune — so the difference can change
no comparison the pipeline performs (equality with the all-ASCII banned
terms, splitting at the space, the punctuation classification). -/
def goToLowerChar (c : Char) : Char :=
  if 65 ≤ c.toNat ∧ c.toNat ≤ 90 then Char.ofNat (c.toNat + 32)
  else if c.toNat = 0x130 then 'i'
  else if c.toNat = 0x212A then 'k'
  else c

/-- Model of Go's `strings.ToLower`: rune-wise lowercasing. -/
def goToLower (s : GoStr) : GoStr := s.map goToLowerChar

/-- Model of Go's `strings.Split(s, " ")`: split at every single space,
keeping empty tokens; `Split("", " ") = [""]`. -/
def splitSpace : GoStr → List GoStr
  | [] => [[]]
  | c :: cs =>
    if c = ' ' then [] :: splitSpace cs
    else
      match splitSpace cs with
      | [] => [[c]]
      | t :: ts => (c :: t) :: ts

/-- Model of Go's `strings.Join(ts, " ")`. -/
def joinSpace : List GoStr → GoStr
  | [] => []
  | [t] => t
  | t :: t2 :: ts => t ++ ' ' :: joinSpace (t2 :: ts)

/-- `hasPunctuation` from src/main.go: true iff some rune of `s` is
punctuation. -/
def hasPunctuation (s : GoStr) : Bool := s.any goIsPunct

/-- The banned list fixed at the top of `processWords`. -/
def bannedWords : List GoStr :=
  ["kerfuffle".toList, "sharbert".toList, "fornax".toList]

/-- The replacement mask `"****"` written into `originalWords[i]`. -/
def mask : GoStr := "****".toList

/-- The message of the error `processWords` returns when a word was
replaced (`errors.New("Bad word found in text")`). -/
def errBadWord : GoStr := "Bad word found in text".toList

/-- The inner `for _, banned := range banned` loop of `processWords`,
acting on the state (current `originalWords[i]`, `foundBadWord`). -/
def bannedScan (word : GoStr) (st : GoStr × Bool) : GoStr × Bool :=
  bannedWords.foldl
    (fun acc b =>
      if b = word then (if hasPunctuation word then acc else (mask, true)) else acc)
    st

/-- One iteration of the outer `for i, word := range lowerWords` loop of
`processWords`: the accumulator carries the already-processed prefix of
`originalWords` and `foundBadWord`; `wo` is `(lowerWords[i], originalWords[i])`. -/
def redactStep (acc : List GoStr × Bool) (wo : GoStr × GoStr) : List GoStr × Bool :=
  let p := bannedScan wo.1 (wo.2, acc.2)
  (acc.1 ++ [p.1], p.2)

/-- `processWords` from src/main.go.  The Go loop runs `i` over
`lowerWords` and writes `originalWords[i]`; the two splits always have
equal length (`splitSpace_goToLower`), so the loop is rendered as a fold
over their zip, threading `foundBadWord`.  A `nil` error is `none`, the
`errors.New` result is `some errBadWord`. -/
def processWords (input : GoStr) : GoStr × Option GoStr :=
  let lowerWords := splitSpace (goToLower input)
  let originalWords := splitSpace input
  let res := (lowerWords.zip originalWords).foldl redactStep ([], false)
  (joinSpace res.1, if res.2 then some errBadWord else none)

/-- `bannedScan` with the banned list abstracted out (used to state that
`processWords` reads no data beyond its input and the fixed list). -/
def bannedScanWith (bl : List GoStr) (word : GoStr) (st : GoStr × Bool) : GoStr × Bool :=
  bl.foldl
    (fun acc b =>
      if b = word then (if hasPunctuation word then acc else (mask, true)) else acc)
    st

/-- `redactStep` with the banned list abstracted out. -/
def redactStepWith (bl : List GoStr) (acc : List GoStr × Bool) (wo : GoStr × GoStr) :
    List GoStr × Bool :=
  let p := bannedScanWith bl wo.1 (wo.2, acc.2)
  (acc.1 ++ [p.1], p.2)

/-- `processWords` with the banned list abstracted out. -/
def processWordsWith (bl : List GoStr) (input : GoStr) : GoStr × Option GoStr :=
  let lowerWords := splitSpace (goToLower input)
  let originalWords := splitSpace input
  let res := (lowerWords.zip originalWords).foldl (redactStepWith bl) ([], false)
  (joinSpace res.1, if res.2 then some errBadWord else none)

/-- The per-token effect of `processWords` (derived characterisation, see
`processWords_eq`): a token is masked iff its lowercased form is exactly a
banned term. -/
def redactTok (t : GoStr) : GoStr := if goToLower t ∈ bannedWords then mask else t

/-- The responses `chirpHandler` can produce, at the level of the data the
handler puts into them (JSON serialisation itself is the standard
library's and is not modelled).  `serverError` is the bare 500 written on
a decode failure, `tooLong` carries the `errorReturnVals.Error` field,
`ok` carries the `cleanedReturnVals.CleanedBody` field — the only field of
a success response. -/
inductive ChirpResponse where
  | serverError : ChirpResponse
  | tooLong : GoStr → ChirpResponse
  | ok : GoStr → ChirpResponse
deriving DecidableEq

/-- The HTTP status code `chirpHandler` writes for each response shape. -/
def ChirpResponse.status : ChirpResponse → Nat
  | .serverError => 500
  | .tooLong _ => 400
  | .ok _ => 200

/-- The `errorReturnVals.Error` value of the over-length response. -/
def tooLongMsg : GoStr := "Chirp is too long".toList

/-- `chirpHandler` from src/main.go, as a function of the decoded request
body: `none` models a request on which JSON decoding of `parameters`
fails (the handler answers a bare 500); on `some body`, `len(params.Body)`
over 140 answers 400 with `errorReturnVals{Error: "Chirp is too long"}`,
and otherwise the handler discards the error of `processWords` and
answers 200 with `cleanedReturnVals{CleanedBody: processedWords}`. -/
def chirpHandler : Option GoStr → ChirpResponse
  | none => .serverError
  | some body =>
    if 140 < goLen body then .tooLong tooLongMsg else .ok (processWords body).1

/-- Two's-complement wrap-around into the `int32` range, as performed by
`atomic.Int32`. -/
def wrap32 (n : Int) : Int := (n + 2 ^ 31) % 2 ^ 32 - 2 ^ 31

/-- `atomic.Int32.Add`: wrapping 32-bit addition. -/
def int32Add (x d : Int) : Int := wrap32 (x + d)

/-- `middlewareMetricsInc` from src/main.go.  A handler is modelled as a
state transformer on `(cfg.fileserverHits, everything the handler may
touch through w and r)`; the type `C` of the latter is arbitrary.  The
returned handler adds 1 to the counter and then delegates to `next` with
the request/response context unchanged, returning `next`'s result. -/
def middlewareMetricsInc {C : Type} (next : Int × C → Int × C) : Int × C → Int × C :=
  fun s => next (int32Add s.1 1, s.2)

/-! ### Basic lemmas about splitting and joining -/

theorem splitSpace_ne_nil (s : GoStr) : splitSpace s ≠ [] := by
  cases s with
  | nil => simp [splitSpace]
  | cons c cs =>
    simp only [splitSpace]
    split
    · simp
    · split <;> simp

theorem joinSpace_splitSpace (s : GoStr) : joinSpace (splitSpace s) = s := by
  induction s with
  | nil => rfl
  | cons c cs ih =>
    rcases List.exists_cons_of_ne_nil (splitSpace_ne_nil cs) with ⟨t, ts, hts⟩
    simp only [splitSpace]
    by_cases hc : c = ' '
    · rw [if_pos hc, hts]
      show ' ' :: joinSpace (t :: ts) = c :: cs
      rw [← hts, ih, hc]
    · rw [if_neg hc, hts]
      cases ts with
      | nil =>
        have ht : t = cs := by
          rw [hts] at ih
          simpa [joinSpace] using ih
        simp [joinSpace, ht]
      | cons t2 ts2 =>
        have h2 : t ++ ' ' :: joinSpace (t2 :: ts2) = cs := by
          rw [hts] at ih
          simpa [joinSpace] using ih
        simp [joinSpace, h2]

theorem mem_splitSpace_no_space (s : GoStr) : ∀ t ∈ splitSpace s, ' ' ∉ t := by
  induction s with
  | nil =>
    intro t ht
    simp only [splitSpace, List.mem_singleton] at ht
    simp [ht]
  | cons c cs ih =>
    intro t ht
    rcases List.exists_cons_of_ne_nil (splitSpace_ne_nil cs) with ⟨t0, ts, hts⟩
    simp only [splitSpace] at ht
    by_cases hc : c = ' '
    · rw [if_pos hc] at ht
      rcases List.mem_cons.mp ht with h | h
      · simp [h]
      · exact ih t h
    · rw [if_neg hc, hts] at ht
      rcases List.mem_cons.mp ht with h | h
      · subst h
        intro hsp
        rcases List.mem_cons.mp hsp with h2 | h2
        · exact hc h2.symm
        · exact ih t0 (hts ▸ List.mem_cons_self t0 ts) h2
      · exact ih t (hts ▸ List.mem_cons_of_mem t0 h)

theorem splitSpace_of_no_space (t : GoStr) (h : ' ' ∉ t) : splitSpace t = [t] := by
  induction t with
  | nil => rfl
  | cons c cs ih =>
    have hc : ¬c = ' ' := fun hc => h (hc ▸ List.mem_cons_self c cs)
    have htail : splitSpace cs = [cs] := ih fun hm => h (List.mem_cons_of_mem c hm)
    simp only [splitSpace, if_neg hc, htail]

theorem splitSpace_append_space (t rest : GoStr) (h : ' ' ∉ t) :
    splitSpace (t ++ ' ' :: rest) = t :: splitSpace rest := by
  induction t with
  | nil => simp [splitSpace]
  | cons c cs ih =>
    have hc : ¬c = ' ' := fun hc => h (hc ▸ List.mem_cons_self c cs)
    have htail := ih fun hm => h (List.mem_cons_of_mem c hm)
    rcases List.exists_cons_of_ne_nil (splitSpace_ne_nil rest) with ⟨t0, ts, hts⟩
    simp only [List.cons_append, splitSpace, if_neg hc, List.append_eq, htail]

theorem splitSpace_joinSpace (l : List GoStr) (hne : l ≠ [])
    (h : ∀ t ∈ l, ' ' ∉ t) : splitSpace (joinSpace l) = l := by
  induction l with
  | nil => exact absurd rfl hne
  | cons t l ih =>
    cases l with
    | nil =>
      show splitSpace (joinSpace [t]) = [t]
      simp only [joinSpace]
      exact splitSpace_of_no_space t (h t (List.mem_cons_self t []))
    | cons t2 l2 =>
      show splitSpace (t ++ ' ' :: joinSpace (t2 :: l2)) = t :: t2 :: l2
      rw [splitSpace_append_space t _ (h t (List.mem_cons_self t _))]
      rw [ih (by simp) fun u hu => h u (List.mem_cons_of_mem t hu)]

/-! ### Lowercasing lemmas -/

theorem toNat_goToLowerChar_of_upper (c : Char) (h : 65 ≤ c.toNat ∧ c.toNat ≤ 90) :
    (goToLowerChar c).toNat = c.toNat + 32 := by
  have hv : (c.toNat + 32).isValidChar := Or.inl (by omega)
  simp only [goToLowerChar, if_pos h]
  rw [Char.ofNat, dif_pos hv]
  rfl

theorem goToLowerChar_eq_self (c : Char) (h1 : ¬(65 ≤ c.toNat ∧ c.toNat ≤ 90))
    (h2 : ¬c.toNat = 0x130) (h3 : ¬c.toNat = 0x212A) : goToLowerChar c = c := by
  simp only [goToLowerChar, if_neg h1, if_neg h2, if_neg h3]

theorem goToLowerChar_eq_space_iff (c : Char) : goToLowerChar c = ' ' ↔ c = ' ' := by
  constructor
  · intro h
    by_cases hu : 65 ≤ c.toNat ∧ c.toNat ≤ 90
    · have h1 := toNat_goToLowerChar_of_upper c hu
      rw [h] at h1
      have hsp : (' ' : Char).toNat = 32 := rfl
      exact absurd h1 (by omega)
    · by_cases h2 : c.toNat = 0x130
      · have hi : goToLowerChar c = 'i' := by
          simp only [goToLowerChar, if_neg hu, if_pos h2]
        rw [hi] at h
        exact absurd h (by decide)
      · by_cases h3 : c.toNat = 0x212A
        · have hk : goToLowerChar c = 'k' := by
            simp only [goToLowerChar, if_neg hu, if_neg h2, if_pos h3]
          rw [hk] at h
          exact absurd h (by decide)
        · rwa [goToLowerChar_eq_self c hu h2 h3] at h
  · intro h
    subst h
    decide

theorem punctRanges_below_or_above_upper :
    ∀ r ∈ punctRanges, r.2 < 65 ∨ 90 < r.1 := by decide

theorem punctRanges_no_dotted_capital_i :
    ∀ r ∈ punctRanges, ¬(r.1 ≤ 0x130 ∧ 0x130 ≤ r.2) := by decide

theorem punctRanges_no_kelvin :
    ∀ r ∈ punctRanges, ¬(r.1 ≤ 0x212A ∧ 0x212A ≤ r.2) := by decide

theorem toLower_of_punct (c : Char) (h : goIsPunct c = true) : goToLowerChar c = c := by
  rcases List.any_eq_true.mp h with ⟨r, hr, hcond⟩
  rw [Bool.and_eq_true, decide_eq_true_eq, decide_eq_true_eq] at hcond
  obtain ⟨hlo, hhi⟩ := hcond
  have hd := punctRanges_below_or_above_upper r hr
  have hdi := punctRanges_no_dotted_capital_i r hr
  have hk := punctRanges_no_kelvin r hr
  exact goToLowerChar_eq_self c (by omega) (by omega) (by omega)

/-- The two splits taken inside `processWords` are aligned: lowercasing
commutes with splitting on spaces (lowercasing fixes the space and maps
nothing else to it). -/
theorem splitSpace_goToLower (s : GoStr) :
    splitSpace (goToLower s) = (splitSpace s).map goToLower := by
  induction s with
  | nil => rfl
  | cons c cs ih =>
    show splitSpace (goToLowerChar c :: goToLower cs) = _
    by_cases hc : c = ' '
    · subst hc
      have h1 : goToLowerChar ' ' = ' ' := by decide
      simp only [splitSpace, h1, if_pos, ih]
      rfl
    · have hc2 : ¬goToLowerChar c = ' ' := fun h => hc ((goToLowerChar_eq_space_iff c).mp h)
      rcases List.exists_cons_of_ne_nil (splitSpace_ne_nil cs) with ⟨t, ts, hts⟩
      simp only [splitSpace, if_neg hc, if_neg hc2, ih, hts, List.map_cons]
      rfl

theorem length_splitSpace_goToLower (s : GoStr) :
    (splitSpace (goToLower s)).length = (splitSpace s).length := by
  rw [splitSpace_goToLower, List.length_map]

/-! ### Characterising `processWords` -/

theorem banned_no_punct : ∀ b ∈ bannedWords, hasPunctuation b = false := by decide

theorem scanStep_foldl (bl : List GoStr) (w o : GoStr) (f : Bool) :
    bl.foldl (fun acc b => if b = w then (mask, true) else acc) (o, f) =
      if w ∈ bl then (mask, true) else (o, f) := by
  induction bl generalizing o f with
  | nil => simp
  | cons b bl ih =>
    simp only [List.foldl_cons]
    by_cases hb : b = w
    · have hmem : w ∈ b :: bl := by
        rw [← hb]
        exact List.mem_cons_self b bl
      rw [if_pos hb, ih mask true, if_pos hmem]
      split <;> rfl
    · rw [if_neg hb, ih]
      by_cases hm : w ∈ bl
      · rw [if_pos hm, if_pos (List.mem_cons_of_mem b hm)]
      · rw [if_neg hm, if_neg fun hc => by
          rcases List.mem_cons.mp hc with h | h
          · exact hb h.symm
          · exact hm h]

theorem bannedScan_eq (w o : GoStr) (f : Bool) :
    bannedScan w (o, f) =
      if w ∈ bannedWords ∧ hasPunctuation w = false then (mask, true) else (o, f) := by
  unfold bannedScan
  by_cases hp : hasPunctuation w
  · have hfun : (fun (acc : GoStr × Bool) b =>
        if b = w then (if hasPunctuation w then acc else (mask, true)) else acc) =
          fun (acc : GoStr × Bool) _ => acc := by
      funext acc b
      simp [hp]
    rw [hfun, if_neg fun hcon => by rw [hp] at hcon; exact Bool.noConfusion hcon.2]
    simp [bannedWords]
  · have hfun : (fun (acc : GoStr × Bool) b =>
        if b = w then (if hasPunctuation w then acc else (mask, true)) else acc) =
          fun (acc : GoStr × Bool) b => if b = w then (mask, true) else acc := by
      funext acc b
      simp [hp]
    rw [hfun, scanStep_foldl]
    rw [Bool.not_eq_true] at hp
    simp [hp]

theorem bannedScan_mem (w o : GoStr) (f : Bool) :
    bannedScan w (o, f) = if w ∈ bannedWords then (mask, true) else (o, f) := by
  rw [bannedScan_eq]
  by_cases h : w ∈ bannedWords
  · rw [if_pos h, if_pos ⟨h, banned_no_punct w h⟩]
  · rw [if_neg h, if_neg fun hcon => h hcon.1]

theorem foldl_redactStep (l : List GoStr) (a : List GoStr) (f : Bool) :
    ((l.map goToLower).zip l).foldl redactStep (a, f) =
      (a ++ l.map redactTok, f || l.any fun t => decide (goToLower t ∈ bannedWords)) := by
  induction l generalizing a f with
  | nil => simp
  | cons t l ih =>
    simp only [List.map_cons, List.zip_cons_cons, List.foldl_cons, List.any_cons]
    show ((l.map goToLower).zip l).foldl redactStep
        (a ++ [(bannedScan (goToLower t) (t, f)).1], (bannedScan (goToLower t) (t, f)).2) = _
    rw [bannedScan_mem]
    by_cases h : goToLower t ∈ bannedWords
    · rw [if_pos h, ih]
      simp [redactTok, if_pos h, h]
    · rw [if_neg h, ih]
      simp [redactTok, if_neg h, h]

theorem processWords_eq (input : GoStr) :
    processWords input =
      (joinSpace ((splitSpace input).map redactTok),
       if (splitSpace input).any (fun t => decide (goToLower t ∈ bannedWords)) then
         some errBadWord
       else none) := by
  show (joinSpace (((splitSpace (goToLower input)).zip (splitSpace input)).foldl
        redactStep ([], false)).1, _) = _
  rw [splitSpace_goToLower, foldl_redactStep]
  simp

theorem map_eq_self_of {α : Type} (f : α → α) :
    ∀ (l : List α), (∀ a ∈ l, f a = a) → l.map f = l := by
  intro l h
  induction l with
  | nil => rfl
  | cons a l ih =>
    simp only [List.map_cons]
    rw [h a (List.mem_cons_self a l), ih fun x hx => h x (List.mem_cons_of_mem a hx)]

theorem map_eq_self_iff {α : Type} (f : α → α) (l : List α) :
    l.map f = l ↔ ∀ a ∈ l, f a = a := by
  constructor
  · intro h a ha
    induction l with
    | nil => cases ha
    | cons b l ih =>
      simp only [List.map_cons, List.cons_eq_cons] at h
      rcases List.mem_cons.mp ha with hm | hm
      · rw [hm, h.1]
      · exact ih h.2 hm
  · exact map_eq_self_of f l

theorem goToLower_mask : goToLower mask = mask := by decide

theorem mask_not_banned : goToLower mask ∉ bannedWords := by decide

theorem redactTok_mask : redactTok mask = mask := by
  unfold redactTok
  rw [if_neg mask_not_banned]

theorem redactTok_ne_iff (t : GoStr) : redactTok t ≠ t ↔ goToLower t ∈ bannedWords := by
  unfold redactTok
  by_cases h : goToLower t ∈ bannedWords
  · rw [if_pos h]
    constructor
    · intro _
      exact h
    · intro _ heq
      rw [← heq] at h
      exact mask_not_banned h
  · simp [if_neg h, h]

theorem hasPunctuation_goToLower (t : GoStr) (h : ∃ c ∈ t, goIsPunct c = true) :
    hasPunctuation (goToLower t) = true := by
  rcases h with ⟨c, hc, hpc⟩
  unfold hasPunctuation goToLower
  rw [List.any_eq_true]
  refine ⟨goToLowerChar c, List.mem_map_of_mem goToLowerChar hc, ?_⟩
  rwa [toLower_of_punct c hpc]

theorem not_banned_of_punct (t : GoStr) (h : ∃ c ∈ t, goIsPunct c = true) :
    goToLower t ∉ bannedWords := by
  intro hmem
  have h1 := banned_no_punct _ hmem
  rw [hasPunctuation_goToLower t h] at h1
  exact Bool.noConfusion h1

/-! ### The claims -/

/-- C1: for every body `b` with (byte) length at most 140 none of whose
tokens lowercases to a banned term, `processWords` returns `b` itself —
every run of consecutive spaces and every empty token included, since
joining the space-split of `b` restores `b` exactly — and a `nil` error
(the flagged signal is false). -/
theorem c1_clean_identity (b : GoStr) (hlen : goLen b ≤ 140)
    (hclean : ∀ t ∈ splitSpace b, goToLower t ∉ bannedWords) :
    processWords b = (b, none) := by
  rw [processWords_eq]
  have hmap : (splitSpace b).map redactTok = splitSpace b :=
    map_eq_self_of redactTok _ fun t ht => by
      unfold redactTok
      rw [if_neg (hclean t ht)]
  have hany : ((splitSpace b).any fun t => decide (goToLower t ∈ bannedWords)) = false := by
    rw [List.any_eq_false]
    intro t ht
    simp [hclean t ht]
  rw [hmap, hany, joinSpace_splitSpace]
  rfl

/-- Witness for `c1_clean_identity` at the two-consecutive-spaces body
`"No  bad words"`. -/
theorem c1_witness :
    goLen ("No  bad words".toList) ≤ 140 ∧
    (∀ t ∈ splitSpace ("No  bad words".toList), goToLower t ∉ bannedWords) ∧
    processWords ("No  bad words".toList) = ("No  bad words".toList, none) :=
  ⟨by decide, by decide, c1_clean_identity _ (by decide) (by decide)⟩

/-- C9: the punctuation guard inside `processWords` never alters the
result: no banned term contains punctuation, so `hasPunctuation` is false
whenever the equality test succeeds, and the scan behaves exactly as it
would with the guard removed — a token position is overwritten iff the
lowercased word is a member of the banned list. -/
theorem c9_guard_vacuous :
    (∀ w ∈ bannedWords, hasPunctuation w = false) ∧
    (∀ (w o : GoStr) (f : Bool),
        bannedScan w (o, f) = if w ∈ bannedWords then (mask, true) else (o, f)) :=
  ⟨banned_no_punct, bannedScan_mem⟩

/-- Witness for `c9_guard_vacuous` at the banned term `"fornax"`. -/
theorem c9_witness :
    "fornax".toList ∈ bannedWords ∧ hasPunctuation ("fornax".toList) = false :=
  ⟨by decide, c9_guard_vacuous.1 _ (by decide)⟩

/-- C2 counterexample: the handler compares `len(params.Body)`, the UTF-8
byte count, against 140 — not the character count.  A body of 71 copies of
the two-byte rune `é` has character count 71 ≤ 140, yet the handler fails
with the TooLong response (status 400), refuting the half of the claim
that says a body of at most 140 characters never fails with TooLong. -/
theorem c2_counterexample :
    (List.replicate 71 'é').length ≤ 140 ∧
    chirpHandler (some (List.replicate 71 'é')) = ChirpResponse.tooLong tooLongMsg ∧
    (chirpHandler (some (List.replicate 71 'é'))).status = 400 := by
  refine ⟨by decide, ?_, ?_⟩ <;> decide

/-- C2 (amended): with length measured as the code measures it — Go's
`len`, the UTF-8 byte count — the claim holds: a body of more than 140
bytes fails with the TooLong response, status 400 and body field
`"Chirp is too long"`, with no redaction attempted, and a body of at most
140 bytes never fails with TooLong (it gets the 200 response instead). -/
theorem c2_amended_byte_length (body : GoStr) :
    (140 < goLen body →
       chirpHandler (some body) = ChirpResponse.tooLong tooLongMsg ∧
       (chirpHandler (some body)).status = 400) ∧
    (goLen body ≤ 140 →
       chirpHandler (some body) = ChirpResponse.ok (processWords body).1) := by
  constructor
  · intro h
    constructor <;> simp [chirpHandler, ChirpResponse.status, if_pos h]
  · intro h
    simp [chirpHandler, Nat.not_lt.mpr h]

set_option maxRecDepth 4000 in
/-- Witness for `c2_amended_byte_length` at a 141-byte body and at a
2-byte body. -/
theorem c2_amended_witness :
    (140 < goLen (List.replicate 141 'a') ∧
       chirpHandler (some (List.replicate 141 'a')) = ChirpResponse.tooLong tooLongMsg) ∧
    (goLen ("hi".toList) ≤ 140 ∧
       chirpHandler (some ("hi".toList)) = ChirpResponse.ok (processWords ("hi".toList)).1) :=
  ⟨⟨by decide, ((c2_amended_byte_length (List.replicate 141 'a')).1 (by decide)).1⟩,
   ⟨by decide, (c2_amended_byte_length ("hi".toList)).2 (by decide)⟩⟩

/-- C3: for every length-accepted body (Go `len` at most 140), finding a
banned word is not a failure: the handler answers 200 carrying the first
component of `processWords` — the redacted body — whether or not the
second component (the flagged signal) was set. -/
theorem c3_flagged_still_ok (body : GoStr) (hlen : goLen body ≤ 140) :
    chirpHandler (some body) = ChirpResponse.ok (processWords body).1 ∧
    (chirpHandler (some body)).status = 200 := by
  constructor <;> simp [chirpHandler, ChirpResponse.status, Nat.not_lt.mpr hlen]

/-- Witness for `c3_flagged_still_ok` at the flagged body `"sharbert hi"`. -/
theorem c3_witness :
    goLen ("sharbert hi".toList) ≤ 140 ∧
    chirpHandler (some ("sharbert hi".toList)) =
      ChirpResponse.ok (processWords ("sharbert hi".toList)).1 ∧
    (processWords ("sharbert hi".toList)).1 = "**** hi".toList :=
  ⟨by decide, (c3_flagged_still_ok ("sharbert hi".toList) (by decide)).1, by decide⟩

/-- C4: a token containing any punctuation rune is never treated as
banned — the scan leaves the token and the flag untouched, and the
per-token redaction is the identity on it; in particular
`processWords "kerfuffle!"` returns `"kerfuffle!"` unflagged while
`processWords "kerfuffle"` returns `"****"` flagged. -/
theorem c4_punct_excluded :
    (∀ t : GoStr, (∃ c ∈ t, goIsPunct c = true) →
        (∀ f : Bool, bannedScan (goToLower t) (t, f) = (t, f)) ∧ redactTok t = t) ∧
    processWords ("kerfuffle!".toList) = ("kerfuffle!".toList, none) ∧
    processWords ("kerfuffle".toList) = (mask, some errBadWord) := by
  refine ⟨?_, by decide, by decide⟩
  intro t ht
  have hnb : goToLower t ∉ bannedWords := not_banned_of_punct t ht
  constructor
  · intro f
    rw [bannedScan_mem, if_neg hnb]
  · unfold redactTok
    rw [if_neg hnb]

/-- Witness for `c4_punct_excluded` at the punctuation-carrying token
`"sharbert."`. -/
theorem c4_witness :
    (∃ c ∈ "sharbert.".toList, goIsPunct c = true) ∧
    bannedScan (goToLower ("sharbert.".toList)) ("sharbert.".toList, false) =
      ("sharbert.".toList, false) ∧
    redactTok ("sharbert.".toList) = "sharbert.".toList :=
  ⟨by decide, (c4_punct_excluded.1 ("sharbert.".toList) (by decide)).1 false,
   (c4_punct_excluded.1 ("sharbert.".toList) (by decide)).2⟩

/-- C5: the redaction decision is taken on the lowercased token by exact
equality with a banned term: the redacted body is the space-join of the
tokens, each masked exactly when its lowercase form is in the banned
list; a token whose lowercase form is not a banned term is kept with its
original casing; and `processWords "KerFuffle"` yields `"****"`,
flagged. -/
theorem c5_case_insensitive_exact :
    (∀ input : GoStr,
        (processWords input).1 =
          joinSpace ((splitSpace input).map
            fun t => if goToLower t ∈ bannedWords then mask else t)) ∧
    (∀ t : GoStr, goToLower t ∉ bannedWords → redactTok t = t) ∧
    processWords ("KerFuffle".toList) = (mask, some errBadWord) := by
  refine ⟨?_, ?_, by decide⟩
  · intro input
    rw [processWords_eq]
    rfl
  · intro t h
    unfold redactTok
    rw [if_neg h]

/-- Witness for `c5_case_insensitive_exact` at the cased non-banned token
`"Hello"`. -/
theorem c5_witness :
    goToLower ("Hello".toList) ∉ bannedWords ∧
    redactTok ("Hello".toList) = "Hello".toList :=
  ⟨by decide, c5_case_insensitive_exact.2.1 ("Hello".toList) (by decide)⟩

/-- C6: moderation is idempotent — re-running `processWords` on a
redacted body returns that body unchanged with a `nil` error (the mask is
never itself banned, so the second run flags nothing). -/
theorem c6_idempotent (b : GoStr) :
    processWords ((processWords b).1) = ((processWords b).1, none) := by
  have hb1 : (processWords b).1 = joinSpace ((splitSpace b).map redactTok) := by
    rw [processWords_eq]
  have hne : (splitSpace b).map redactTok ≠ [] := fun h =>
    splitSpace_ne_nil b (List.map_eq_nil_iff.mp h)
  have hnospace : ∀ u ∈ (splitSpace b).map redactTok, ' ' ∉ u := by
    intro u hu
    rcases List.mem_map.mp hu with ⟨t, ht, rfl⟩
    unfold redactTok
    split
    · decide
    · exact mem_splitSpace_no_space b t ht
  have hsplit : splitSpace (joinSpace ((splitSpace b).map redactTok)) =
      (splitSpace b).map redactTok :=
    splitSpace_joinSpace _ hne hnospace
  have hfix : ∀ u ∈ (splitSpace b).map redactTok, goToLower u ∉ bannedWords := by
    intro u hu
    rcases List.mem_map.mp hu with ⟨t, ht, rfl⟩
    unfold redactTok
    split
    · exact mask_not_banned
    · assumption
  rw [hb1, processWords_eq, hsplit]
  have hmap : ((splitSpace b).map redactTok).map redactTok = (splitSpace b).map redactTok :=
    map_eq_self_of redactTok _ fun u hu => by
      unfold redactTok
      rw [if_neg (hfix u hu)]
  have hany : (((splitSpace b).map redactTok).any
      fun t => decide (goToLower t ∈ bannedWords)) = false := by
    rw [List.any_eq_false]
    intro u hu
    simp [hfix u hu]
  rw [hmap, hany]
  rfl

/-- C7: the instrumented handler increments the hit counter exactly once
and then delegates: it equals the wrapped handler applied to the state
whose counter was bumped by one (wrapping 32-bit add) and whose
request/response context is untouched, its result returned as is; in
particular, when the wrapped handler does not itself touch the counter,
the counter after the call is exactly the old value plus one. -/
theorem c7_middleware (C : Type) (next : Int × C → Int × C) (s : Int × C) :
    middlewareMetricsInc next s = next (int32Add s.1 1, s.2) ∧
    ((∀ u : Int × C, (next u).1 = u.1) →
       (middlewareMetricsInc next s).1 = int32Add s.1 1) :=
  ⟨rfl, fun h => h (int32Add s.1 1, s.2)⟩

/-- Witness for `c7_middleware` with the identity handler at counter 0. -/
theorem c7_witness :
    (middlewareMetricsInc (fun u : Int × Unit => u) (0, ())).1 = int32Add 0 1 :=
  (c7_middleware Unit (fun u => u) (0, ())).2 fun _ => rfl

/-- C8: the error of `processWords` is exactly the flagged signal — it is
non-nil iff redaction changed some token — and `chirpHandler` discards
it: every length-accepted body gets status 200 and a response carrying
only the cleaned body, so the flag never reaches the client. -/
theorem c8_error_is_flag :
    (∀ input : GoStr,
        ((processWords input).2 ≠ none ↔
          (splitSpace input).map redactTok ≠ splitSpace input)) ∧
    (∀ body : GoStr, goLen body ≤ 140 →
        chirpHandler (some body) = ChirpResponse.ok (processWords body).1 ∧
        (chirpHandler (some body)).status = 200) := by
  constructor
  · intro input
    rw [processWords_eq]
    by_cases h : ((splitSpace input).any fun t => decide (goToLower t ∈ bannedWords)) = true
    · rw [if_pos h]
      simp only [ne_eq, reduceCtorEq, not_false_eq_true, true_iff]
      rcases List.any_eq_true.mp h with ⟨t, ht, hflag⟩
      intro hmapeq
      have := (map_eq_self_iff redactTok (splitSpace input)).mp hmapeq t ht
      exact (redactTok_ne_iff t).mpr (of_decide_eq_true hflag) this
    · rw [if_neg h]
      simp only [ne_eq, not_true_eq_false, false_iff, not_not]
      rw [Bool.not_eq_true, List.any_eq_false] at h
      exact map_eq_self_of redactTok _ fun t ht => by
        have := h t ht
        unfold redactTok
        simp only [decide_eq_true_eq] at this
        rw [if_neg this]
  · intro body hlen
    constructor <;> simp [chirpHandler, ChirpResponse.status, Nat.not_lt.mpr hlen]

/-- Witness for `c8_error_is_flag` at the length-accepted body
`"fornax"`. -/
theorem c8_witness :
    goLen ("fornax".toList) ≤ 140 ∧
    chirpHandler (some ("fornax".toList)) =
      ChirpResponse.ok (processWords ("fornax".toList)).1 :=
  ⟨by decide, (c8_error_is_flag.2 ("fornax".toList) (by decide)).1⟩

/-- C10: `processWords` is a pure function of its input: it equals the
same computation with the banned list passed explicitly, applied to the
fixed `bannedWords` list, and any two invocations on equal inputs return
the identical (string, error) pair. -/
theorem c10_deterministic :
    (∀ input : GoStr, processWords input = processWordsWith bannedWords input) ∧
    (∀ i j : GoStr, i = j → processWords i = processWords j) :=
  ⟨fun _ => rfl, fun _ _ h => h ▸ rfl⟩

/-- Witness for `c10_deterministic` at the body `"abc"`. -/
theorem c10_witness :
    ("abc".toList : GoStr) = "abc".toList ∧
    processWords ("abc".toList) = processWords ("abc".toList) :=
  ⟨rfl, c10_deterministic.2 ("abc".toList) ("abc".toList) rfl⟩

end Chirpy
